import Mathlib

/-!
Formal model of the section/timestamp inference engine of the
paper-weights-podcast repository, together with proofs of the behavioural
properties stated in its specification.

The Python sources modelled here are:

  * scripts/extract_timestamps.py  (section parsing, proportional timestamp
    estimation, the precise-timestamp side-file loader and the resolution
    policy)
  * scripts/add_chapters.py        (the chapter-time variant of the same
    proportional estimator)

Modelling conventions (applied uniformly below):

  * Script text is a Lean String; line splitting mirrors Python's handling
    of the newline character.
  * The regular expressions of the source are hand-compiled to deterministic
    scanners over List Char.  Each scanner's doc comment quotes the regex it
    implements and, where the regex engine's backtracking matters, the case
    analysis justifying the deterministic form.
  * Python float arithmetic in the estimators, namely
    int(count / total * duration), is modelled as exact rational truncation,
    which for non-negative integers is count * duration / total in Nat.
  * Millisecond values are modelled as Nat (the specification restricts all
    timestamp arithmetic to non-negative integers).
  * Code that can raise returns Option: none models an uncaught exception.
  * Printing a warning to stderr is modelled as a Bool component of the
    result (true when the warning is printed).
  * Python dictionaries produced as results are modelled as association
    lists of string pairs, so that presence or absence of a key is
    observable data.
  * The quoted-phrase heuristic _extract_paper_name_from_dialogue only ever
    influences the paper_name/title of deep-dive blocks and no verified
    property depends on its output, so the parsers take it as an explicit
    function parameter and every theorem quantifies over it.
-/

/-- Python whitespace class for the re module's backslash-s: space, tab,
newline, carriage return, vertical tab and form feed. -/
def pyIsSpace (c : Char) : Bool :=
  c = ' ' || c = '\t' || c = '\n' || c = '\r' || c = '\x0b' || c = '\x0c'

/-- Python word-character class (backslash-w restricted to ASCII):
letters, digits and underscore. -/
def isWordChar (c : Char) : Bool :=
  c.isAlphanum || c = '_'

/-- Helper for splitting character streams into lines: prepend a character
to the first line of an already-split tail. -/
def consHead (c : Char) : List (List Char) → List (List Char)
  | [] => [[c]]
  | l :: ls => (c :: l) :: ls

/-- Split a character stream at newline characters, as Python's
str.split applied to a single newline: always at least one (possibly
empty) line, no newline characters inside any line. -/
def splitNl : List Char → List (List Char)
  | [] => [[]]
  | c :: rest => if c = '\n' then [] :: splitNl rest else consHead c (splitNl rest)

/-- Python str.strip restricted to the whitespace characters above:
drop leading and trailing whitespace of a character stream. -/
def pyStripChars (cs : List Char) : List Char :=
  ((cs.dropWhile pyIsSpace).reverse.dropWhile pyIsSpace).reverse

/-- Test whether the dialogue-tag regex of the sources, written
as backslash-star twice, then word characters, then backslash-star twice
and a colon, matches at the head of the stream.  The regex engine's greedy
word-run cannot backtrack productively because a star or colon is not a
word character, so matching the maximal word run is exact. -/
def matchesTagAt (cs : List Char) : Bool :=
  match cs with
  | '*' :: '*' :: rest =>
    let w := rest.takeWhile isWordChar
    if w.isEmpty then false
    else
      match rest.drop w.length with
      | '*' :: '*' :: ':' :: _ => true
      | _ => false
  | _ => false

/-- Number of dialogue-tag matches in a stream, as re.findall counts them
in extract_timestamps.py and add_chapters.py.  Two matches of this pattern
can never overlap (the closing star pair is followed by a colon, which is
not a word character, and a match cannot begin inside a word run), so
counting every position at which the pattern matches equals the findall
count. -/
def countTags : List Char → Nat
  | [] => 0
  | c :: rest => (if matchesTagAt (c :: rest) then 1 else 0) + countTags rest

/-- Keyword list for the duration annotation: "min". -/
def kwMin : List Char := [ 'm', 'i', 'n' ]

/-- Keyword list for the duration annotation: "sec". -/
def kwSec : List Char := [ 's', 'e', 'c' ]

/-- Continuation of the duration-annotation scanner after the min/sec
keyword: either a closing parenthesis, or a comma, a space, one or more
non-parenthesis characters and a closing parenthesis; in both cases only
whitespace may follow to the end of the title. -/
def durAfterKw (cs : List Char) : Bool :=
  match cs with
  | ')' :: rest => rest.all pyIsSpace
  | ',' :: ' ' :: rest =>
    let t := rest.takeWhile (fun c => c ≠ ')')
    if t.isEmpty then false
    else
      match rest.drop t.length with
      | ')' :: rest2 => rest2.all pyIsSpace
      | _ => false
  | _ => false

/-- Test whether the whole stream matches the end-anchored duration
annotation regex of the sources: optional whitespace, an opening
parenthesis, digits, one space, "min" or "sec", an optional comma clause,
a closing parenthesis and trailing whitespace up to the end.  All
alternation points are deterministic because the character classes are
disjoint from the literals that follow them. -/
def durSuffixMatch (cs : List Char) : Bool :=
  match cs.dropWhile pyIsSpace with
  | '(' :: rest =>
    let d := rest.takeWhile Char.isDigit
    if d.isEmpty then false
    else
      match rest.drop d.length with
      | ' ' :: rest2 =>
        if kwMin.isPrefixOf rest2 then durAfterKw (rest2.drop 3)
        else if kwSec.isPrefixOf rest2 then durAfterKw (rest2.drop 3)
        else false
      | _ => false
  | _ => false

/-- Python re.sub of the end-anchored duration annotation with the empty
string: remove the suffix starting at the leftmost position from which the
annotation matches through to the end of the title; titles contain no
newline, so the end anchor is the end of the stream. -/
def stripDurationChars : List Char → List Char
  | [] => []
  | c :: rest => if durSuffixMatch (c :: rest) then [] else c :: stripDurationChars rest

/-- Case-insensitive literal matcher: the literal is given lowercase and is
compared against the lowered input, as re.IGNORECASE compares ASCII
letters.  Returns the remainder of the stream on success. -/
def dropLitCI : List Char → List Char → Option (List Char)
  | [], cs => some cs
  | _ :: _, [] => none
  | a :: l, c :: r => if c.toLower = a then dropLitCI l r else none

/-- Case-sensitive literal matcher returning the remainder on success. -/
def dropLit (lit cs : List Char) : Option (List Char) :=
  if lit.isPrefixOf cs then some (cs.drop lit.length) else none

/-- Scanner for one or more digits; returns the remainder on success. -/
def eatDigits (cs : List Char) : Option (List Char) :=
  let d := cs.takeWhile Char.isDigit
  if d.isEmpty then none else some (cs.drop d.length)

/-- Dash class of the segment-header regexes: em dash, en dash or hyphen. -/
def isDash (c : Char) : Bool :=
  c = '—' || c = '–' || c = '-'

/-- Scanner for exactly one dash-class character. -/
def eatDash (cs : List Char) : Option (List Char) :=
  match cs with
  | c :: r => if isDash c then some r else none
  | [] => none

/-- Tail test for the regex fragment of optional whitespace followed by a
captured run of one or more non-newline characters.  The whitespace run is
greedy but the engine backtracks into it when nothing follows, and the dot
class accepts every non-newline whitespace character, so the fragment
matches exactly when the maximal whitespace run contains a non-newline
character or is followed by a further (necessarily non-whitespace,
hence non-newline) character. -/
def titleTailOk (cs : List Char) : Bool :=
  (cs.takeWhile pyIsSpace).any (fun c => c != '\n') || !(cs.dropWhile pyIsSpace).isEmpty

/-- Shared tail of the title-template matchers: the regex fragment of
optional whitespace and a captured non-empty run, returning the capture
stripped as the sources apply str.strip to the group.  Titles contain no
newline, so when the remainder is non-empty the fragment matches and the
stripped capture is the remainder with surrounding whitespace removed
(backtracking can make the capture a pure-whitespace run, which strips to
the empty string, exactly as pyStripChars yields). -/
def captureRest (cs : List Char) : Option String :=
  if cs.isEmpty then none else some (String.mk (pyStripChars (cs.dropWhile pyIsSpace)))

/-- Matcher for the first standard-header template of
extract_timestamps.py, anchored at the start of the cleaned title:
"Deep Dive", optional whitespace, optional digits, an optional
parenthesised group, a colon and the captured name (case-insensitive).
The optional parenthesised group is greedy; when it matches but no colon
follows, the engine falls back to requiring the colon directly, which the
second branch of the match below reproduces. -/
def matchDeepDive (cs : List Char) : Option String :=
  match dropLitCI ( "deep dive".toList) cs with
  | none => none
  | some r1 =>
    let r3 := (r1.dropWhile pyIsSpace).dropWhile Char.isDigit
    let grp : Option (List Char) :=
      match r3.dropWhile pyIsSpace with
      | '(' :: pr =>
        let t := pr.takeWhile (fun c => c ≠ ')')
        (match pr.drop t.length with
         | ')' :: r4 => some r4
         | _ => none)
      | _ => none
    let afterColon : Option (List Char) :=
      match grp with
      | some r4 =>
        (match r4 with
         | ':' :: r5 => some r5
         | _ =>
           match r3 with
           | ':' :: r5 => some r5
           | _ => none)
      | none =>
        match r3 with
        | ':' :: r5 => some r5
        | _ => none
    match afterColon with
    | some r5 => captureRest r5
    | none => none

/-- Matcher for the second standard-header template: "Paper", optional
whitespace, one or more digits, a colon directly after the digits, and the
captured name (case-insensitive). -/
def matchPaperNum (cs : List Char) : Option String :=
  match dropLitCI ( "paper".toList) cs with
  | none => none
  | some r1 =>
    let r2 := r1.dropWhile pyIsSpace
    let d := r2.takeWhile Char.isDigit
    if d.isEmpty then none
    else
      match r2.drop d.length with
      | ':' :: r4 => captureRest r4
      | _ => none

/-- Matcher applied by the segment-format parser to a header title:
"SEGMENT:", whitespace, "PAPER", whitespace, digits, whitespace, a
dash-class character and the captured name (case-insensitive, anchored at
the start of the title). -/
def matchSegTitle (cs : List Char) : Option String :=
  match dropLitCI ( "segment:".toList) cs with
  | none => none
  | some r1 =>
    match dropLitCI ( "paper".toList) (r1.dropWhile pyIsSpace) with
    | none => none
    | some r2 =>
      match eatDigits (r2.dropWhile pyIsSpace) with
      | none => none
      | some r3 =>
        match eatDash (r3.dropWhile pyIsSpace) with
        | none => none
        | some r4 => captureRest r4

/-- Literal line-start of the dialect-detection segment-header regex. -/
def segLit : List Char := ( "### SEGMENT:".toList)

/-- Literal "PAPER" of the dialect-detection segment-header regex, which
is compiled without re.IGNORECASE. -/
def paperLit : List Char := ( "PAPER".toList)

/-- Test whether the dialect-detection segment-header regex matches
starting at this position (the position is required to be a line start by
the caller).  The regex's whitespace runs may contain newline characters,
so a match may span lines; the final captured run must contain at least
one non-newline character, which titleTailOk decides. -/
def segMatchAt (cs : List Char) : Bool :=
  match dropLit segLit cs with
  | none => false
  | some r1 =>
    match dropLit paperLit (r1.dropWhile pyIsSpace) with
    | none => false
    | some r2 =>
      match eatDigits (r2.dropWhile pyIsSpace) with
      | none => false
      | some r3 =>
        match eatDash (r3.dropWhile pyIsSpace) with
        | none => false
        | some r4 => titleTailOk r4

/-- Walk the content, trying the segment-header regex at every line start
(the start of the content and every position following a newline), as
re.findall with re.MULTILINE anchoring does. -/
def existsSegMatchAux : List Char → Bool → Bool
  | [], _ => false
  | c :: rest, atStart => (atStart && segMatchAt (c :: rest)) || existsSegMatchAux rest (c == '\n')

/-- Truthiness of the findall over the segment-header pattern in
parse_script_sections of extract_timestamps.py. -/
def existsSegMatch (cs : List Char) : Bool :=
  existsSegMatchAux cs true

/-- Test whether one line triggers the Deep Dives block regex: the
regex anchors at a line start, matches the literal and then optional
whitespace up to the line's end, so a line triggers it exactly when it is
the literal "## Deep Dives" followed only by whitespace. -/
def ddLineB (l : List Char) : Bool :=
  ( "## Deep Dives".toList).isPrefixOf l && (l.drop 13).all pyIsSpace

/-- Divider split of _parse_deep_dives_block: split the body at every
newline, three-or-more hyphens, newline; the hyphen run is maximal and the
pattern consumes both newlines, with scanning resuming after the match as
re.split does. -/
def splitDivs (cs : List Char) : List (List Char) :=
  match cs with
  | [] => [ [] ]
  | c :: rest =>
    let run := rest.takeWhile (fun x => x = '-')
    let after := rest.drop run.length
    if c = '\n' ∧ 3 ≤ run.length ∧ after.head? = some '\n' then
      [] :: splitDivs after.tail
    else consHead c (splitDivs rest)
termination_by cs.length
decreasing_by
  all_goals simp_all [List.length_drop]
  omega

/-- Split the lines of a script at header lines, as re.split over a
line-anchored header prefix: the first returned part is the text before
the first header line, each following part begins with its header line
with the prefix removed. -/
def reSplitGo (hp : List Char) : List (List Char) → List (List (List Char))
  | [] => [ [] ]
  | l :: rest =>
    match reSplitGo hp rest with
    | p0 :: ps =>
      if hp.isPrefixOf l then [] :: ((l.drop hp.length) :: p0) :: ps
      else (l :: p0) :: ps
    | [] => [ [] ]

/-- Header parts of a script for a given header prefix, with the text
before the first header line discarded, as the sources' iteration over
parts one onwards. -/
def headerParts (hp : List Char) (content : String) : List (List (List Char)) :=
  (reSplitGo hp (splitNl content.toList)).tail

/-- Per-part line list of the sources: the part is re-joined with
newlines, stripped as a whole, and split into lines again, mirroring
part.strip() followed by split on the newline. -/
def partLines (p : List (List Char)) : List (List Char) :=
  splitNl (pyStripChars (List.intercalate [ '\n' ] p))

/-- Lowercase image of a character stream, as str.lower on ASCII. -/
def lowerChars (cs : List Char) : List Char :=
  cs.map Char.toLower

/-- Substring containment on character streams, as Python's in operator
on strings: the needle is a prefix of some suffix of the haystack. -/
def containsSub : List Char → List Char → Bool
  | needle, [] => needle.isEmpty
  | needle, c :: rest => needle.isPrefixOf (c :: rest) || containsSub needle rest

/-- Containment test for the "quick hit" marker in a lowered title. -/
def containsQuickHit (cs : List Char) : Bool :=
  containsSub ( "quick hit".toList) (lowerChars cs)

namespace ExtractTimestamps

/-- Section record of extract_timestamps.py: title, dialogue-segment
count, optional inferred paper name and the quick-hits flag. -/
structure SectionR where
  title : String
  segment_count : Nat
  paper_name : Option String
  is_quick_hits : Bool
deriving DecidableEq, Repr

/-- One part of _parse_standard_sections: strip and split the part, take
the first line as title, strip the duration annotation, count dialogue
tags in the remaining lines, and try the two title templates in order. -/
def stdSection (p : List (List Char)) : SectionR :=
  let ls := partLines p
  let title := pyStripChars (ls.headD [])
  let ct := stripDurationChars title
  let body := List.intercalate [ '\n' ] ls.tail
  { title := String.mk ct
    segment_count := countTags body
    paper_name :=
      match matchDeepDive ct with
      | some pn => some pn
      | none => matchPaperNum ct
    is_quick_hits := containsQuickHit ct }

/-- Parser for the standard header dialect (extract_timestamps.py,
_parse_standard_sections): split at top-level headers, discard the text
before the first header, and build one section per part. -/
def parseStandardSections (content : String) : List SectionR :=
  (headerParts ( "## ".toList) content).map stdSection

/-- One part of _parse_segment_format: the title is the first line of the
stripped part, the paper name is matched against the raw title, and the
stored title has the duration annotation stripped. -/
def segSection (p : List (List Char)) : SectionR :=
  let ls := partLines p
  let title := pyStripChars (ls.headD [])
  let body := List.intercalate [ '\n' ] ls.tail
  { title := String.mk (stripDurationChars title)
    segment_count := countTags body
    paper_name := matchSegTitle title
    is_quick_hits := false }

/-- Parser for the segment-header dialect (extract_timestamps.py,
_parse_segment_format): split at third-level headers, discard the text
before the first header. -/
def parseSegmentFormat (content : String) : List SectionR :=
  (headerParts ( "### ".toList) content).map segSection

/-- One divider block of the Deep Dives body: strip it, discard it when
empty or without dialogue tags, otherwise run the quoted-phrase heuristic
for the paper name; a falsy (absent or empty) heuristic result makes the
title fall back to the literal "Deep Dive". -/
def ddBlockSection (en : String → Option String) (b : List Char) : Option SectionR :=
  let bs := pyStripChars b
  if bs.isEmpty then none
  else
    let segs := countTags bs
    if segs = 0 then none
    else
      let pn := en (String.mk bs)
      some
        { title :=
            match pn with
            | some s => if s.isEmpty then "Deep Dive" else s
            | none => "Deep Dive"
          segment_count := segs
          paper_name := pn
          is_quick_hits := false }

/-- One top-level part of _parse_deep_dives_block: the part titled
"Deep Dives" (case-insensitive) is split at horizontal-rule dividers into
paper blocks; a part whose title contains "quick hit" becomes one
quick-hits section; any other part becomes one plain section. -/
def ddTopSection (en : String → Option String) (p : List (List Char)) : List SectionR :=
  let ls := partLines p
  let st := pyStripChars (ls.headD [])
  let body := List.intercalate [ '\n' ] ls.tail
  if lowerChars st = ( "deep dives".toList) then
    (splitDivs body).filterMap (ddBlockSection en)
  else if containsQuickHit st then
    [ { title := String.mk st, segment_count := countTags body
        paper_name := none, is_quick_hits := true } ]
  else
    [ { title := String.mk st, segment_count := countTags body
        paper_name := none, is_quick_hits := false } ]

/-- Parser for the block-with-dividers dialect (extract_timestamps.py,
_parse_deep_dives_block). -/
def parseDeepDivesBlock (en : String → Option String) (content : String) : List SectionR :=
  (headerParts ( "## ".toList) content).flatMap (ddTopSection en)

/-- Parsing strategies of the dialect detector. -/
inductive Strategy where
  | segmentHeader
  | blockWithDividers
  | standard
deriving DecidableEq, Repr

/-- Dialect detection of parse_script_sections: the segment-header regex
searched over the whole content at line starts wins, then the Deep Dives
header line, then the standard strategy. -/
def selectStrategy (content : String) : Strategy :=
  if existsSegMatch content.toList then .segmentHeader
  else if (splitNl content.toList).any ddLineB then .blockWithDividers
  else .standard

/-- Dispatcher parse_script_sections of extract_timestamps.py. -/
def parse_script_sections (en : String → Option String) (content : String) : List SectionR :=
  match selectStrategy content with
  | .segmentHeader => parseSegmentFormat content
  | .blockWithDividers => parseDeepDivesBlock en content
  | .standard => parseStandardSections content

/-- Sum of the segment counts of a section list. -/
def totalSegments (ss : List SectionR) : Nat :=
  (ss.map (fun s => s.segment_count)).sum

/-- Minutes component of the MM:SS format: milliseconds divided by
sixty thousand. -/
def minutesOf (ms : Nat) : Nat := ms / 60000

/-- Seconds component of the MM:SS format: the millisecond remainder of a
minute divided by one thousand (truncating). -/
def secondsOf (ms : Nat) : Nat := ms % 60000 / 1000

/-- Python format specifier 02d: decimal digits left-padded with zeros to
width two (wider numbers are printed in full). -/
def pad2 (n : Nat) : String :=
  if n < 10 then "0" ++ toString n else toString n

/-- The MM:SS timestamp string built by the sources from a millisecond
value. -/
def formatTimestamp (ms : Nat) : String :=
  pad2 (minutesOf ms) ++ ":" ++ pad2 (secondsOf ms)

/-- Python truthiness of an optional string: absent and empty are falsy. -/
def pyTruthy : Option String → Bool
  | none => false
  | some s => !s.isEmpty

/-- Side-file element of the date-timestamps JSON array, with every field
optional (absence models a missing key; present values are well-typed,
since an element value of the wrong type raises inside the loader's try
block and is subsumed by the load-error case of SideFile). -/
structure PItem where
  title : Option String
  timestamp_ms : Option Nat
  paper_name : Option String
  is_quick_hits : Option Bool
deriving DecidableEq, Repr

/-- Observable state of the side file for a given date: absent, raising
on load (unreadable, malformed JSON, or element values whose types make
the conversion raise), or a well-formed array of elements. -/
inductive SideFile where
  | missing
  | loadError
  | ok (items : List PItem)
deriving DecidableEq, Repr

/-- Conversion of one side-file element by load_precise_timestamps:
elements with both the title and the timestamp are kept and produce a
dictionary with exactly the keys title and timestamp_str; all other
elements are skipped. -/
def convertItem (it : PItem) : Option (List (String × String)) :=
  match it.title, it.timestamp_ms with
  | some t, some ms => some [( "title", t), ( "timestamp_str", formatTimestamp ms)]
  | _, _ => none

/-- Loader load_precise_timestamps of extract_timestamps.py.  The first
component is the returned value (none models Python None), the second
records whether the warning was printed to stderr; only the exception
handler prints it. -/
def load_precise_timestamps (date_str : Option String) (file : SideFile) :
    Option (List (List (String × String))) × Bool :=
  if pyTruthy date_str then
    match file with
    | .missing => (none, false)
    | .loadError => (none, true)
    | .ok items => (some (items.filterMap convertItem), false)
  else (none, false)

/-- Dictionary lookup on the association-list model of a Python dict. -/
def dictGet (k : String) (d : List (String × String)) : Option String :=
  match d.find? (fun kv => kv.1 == k) with
  | some kv => some kv.2
  | none => none

/-- Result dictionary of get_paper_timestamps: either the empty dict
(returned when the script has no dialogue segments) or a dict holding the
deep-dive timestamp list and optionally the quick-hits timestamp. -/
inductive GPTResult where
  | empty
  | mapping (deep_dive_timestamps : List String) (quick_hits : Option String)
deriving DecidableEq, Repr

/-- Single pass of get_paper_timestamps over the loaded precise entries,
carried as an accumulating loop: the timestamp of every entry with a
truthy paper_name is appended to the deep-dive list and the last entry
with a truthy is_quick_hits sets the quick-hits marker. -/
def buildPreciseMapping :
    List (List (String × String)) → List String × Option String → List String × Option String
  | [], acc => acc
  | ts :: rest, acc =>
    buildPreciseMapping rest
      ((if pyTruthy (dictGet "paper_name" ts)
        then acc.1 ++ [(dictGet "timestamp_str" ts).getD ""] else acc.1),
       (if pyTruthy (dictGet "is_quick_hits" ts)
        then some ((dictGet "timestamp_str" ts).getD "") else acc.2))

/-- Fixed set of structural titles excluded from the paper-timestamp
mapping in the estimation walk of get_paper_timestamps. -/
def structuralTitles : List String :=
  [ "Cold Open", "Outro", "Wrap-Up", "INTRO", "WRAP-UP" ]

/-- Estimation walk of get_paper_timestamps over the parsed sections,
carrying the running start time; the advance by
int(count / total * duration) is modelled as exact truncation. -/
def gptWalk (total D : Nat) :
    List SectionR → Nat → List String → Option String → List String × Option String
  | [], _, dd, qh => (dd, qh)
  | s :: rest, cur, dd, qh =>
    let ts := formatTimestamp cur
    let cond := pyTruthy s.paper_name ||
      (decide (0 < s.segment_count) && !s.is_quick_hits && !(structuralTitles.contains s.title))
    let dd2 :=
      if cond && (pyTruthy s.paper_name || decide (2 ≤ s.segment_count))
      then dd ++ [ts] else dd
    let qh2 := if s.is_quick_hits then some ts else qh
    gptWalk total D rest (cur + s.segment_count * D / total) dd2 qh2

/-- Precise branch of get_paper_timestamps of extract_timestamps.py: when
the date is truthy and the loader returns a truthy (non-empty) list, build
the mapping from the loaded entries and return it provided its deep-dive
list is non-empty; in every other case fall through to estimation
(modelled as none). -/
def precisePaperBranch (date_str : Option String) (file : SideFile) : Option GPTResult :=
  if pyTruthy date_str then
    match (load_precise_timestamps date_str file).1 with
    | some precise =>
      if precise.isEmpty then none
      else
        let m := buildPreciseMapping precise ([], none)
        if m.1.isEmpty then none else some (.mapping m.1 m.2)
    | none => none
  else none

/-- Feed-builder resolver get_paper_timestamps of extract_timestamps.py:
the precise branch when it yields a mapping, otherwise the estimation walk
over the parsed sections.  The audio duration D stands for the externally
probed MP3 length in milliseconds.  The second component records whether
the estimation path (parsing the script and walking sections) was
taken. -/
def get_paper_timestamps (en : String → Option String) (script : String) (D : Nat)
    (date_str : Option String) (file : SideFile) : GPTResult × Bool :=
  match precisePaperBranch date_str file with
  | some r => (r, false)
  | none =>
    let sections := parse_script_sections en script
    let total := totalSegments sections
    if total = 0 then (.empty, true)
    else
      let w := gptWalk total D sections 0 [] none
      (.mapping w.1 w.2, true)

/-- Walk of calculate_proportional_timestamps emitting one dictionary of
title and timestamp_str per section. -/
def cptWalk (total D : Nat) : List SectionR → Nat → List (List (String × String))
  | [], _ => []
  | s :: rest, cur =>
    [( "title", s.title), ( "timestamp_str", formatTimestamp cur)]
      :: cptWalk total D rest (cur + s.segment_count * D / total)

/-- Estimator calculate_proportional_timestamps of extract_timestamps.py:
empty when the total segment count is zero (its explicit guard), otherwise
the proportional walk with running truncated advances. -/
def calculate_proportional_timestamps (D : Nat) (sections : List SectionR) :
    List (List (String × String)) :=
  if totalSegments sections = 0 then []
  else cptWalk (totalSegments sections) D sections 0

/-- Resolver extract_timestamps of extract_timestamps.py: a supplied date
with a loaded non-empty precise list is returned as-is, anything else
falls back to parsing and proportional estimation.  The second component
records whether the estimation path was taken. -/
def extract_timestamps (en : String → Option String) (script : String) (D : Nat)
    (date_str : Option String) (file : SideFile) :
    List (List (String × String)) × Bool :=
  let fb := (calculate_proportional_timestamps D (parse_script_sections en script), true)
  if pyTruthy date_str then
    match (load_precise_timestamps date_str file).1 with
    | some l => if l.isEmpty then fb else (l, false)
    | none => fb
  else fb

end ExtractTimestamps

namespace AddChapters

/-- Section record of add_chapters.py: title and dialogue-segment count. -/
structure SectionC where
  title : String
  segment_count : Nat
deriving DecidableEq, Repr

/-- Chapter record of add_chapters.py with start and end milliseconds. -/
structure Chapter where
  title : String
  start_ms : Nat
  end_ms : Nat
deriving DecidableEq, Repr

/-- One part of parse_script_sections of add_chapters.py: like the
standard strategy of extract_timestamps.py but recording only the cleaned
title and the dialogue-segment count. -/
def chapSection (p : List (List Char)) : SectionC :=
  let ls := partLines p
  let title := pyStripChars (ls.headD [])
  let body := List.intercalate [ '\n' ] ls.tail
  { title := String.mk (stripDurationChars title)
    segment_count := countTags body }

/-- Parser parse_script_sections of add_chapters.py: split at top-level
headers, skipping the content before the first header. -/
def parse_script_sections (content : String) : List SectionC :=
  (headerParts ( "## ".toList) content).map chapSection

/-- Sum of the segment counts of a chapter-section list. -/
def totalSegments (ss : List SectionC) : Nat :=
  (ss.map (fun s => s.segment_count)).sum

/-- Start-time walk of calculate_chapter_times: each section starts at the
running time, which then advances by the truncated proportional share. -/
def buildStarts (total D : Nat) : List SectionC → Nat → List (String × Nat)
  | [], _ => []
  | s :: rest, cur => (s.title, cur) :: buildStarts total D rest (cur + s.segment_count * D / total)

/-- End-time pass of calculate_chapter_times: every chapter ends where
the next one starts and the last chapter ends at the total duration. -/
def withEnds (D : Nat) : List (String × Nat) → List Chapter
  | [] => []
  | [x] => [ { title := x.1, start_ms := x.2, end_ms := D } ]
  | x :: y :: rest => { title := x.1, start_ms := x.2, end_ms := y.2 } :: withEnds D (y :: rest)

/-- Estimator calculate_chapter_times of add_chapters.py.  The function
has no zero-total guard: with a non-empty section list whose total segment
count is zero the first loop iteration divides by zero and the call raises
ZeroDivisionError, modelled as none; with an empty section list the loop
body never runs and the call returns an empty chapter list. -/
def calculate_chapter_times (sections : List SectionC) (D : Nat) :
    Option (List Chapter × Nat) :=
  match sections with
  | [] => some ([], D)
  | _ :: _ =>
    if totalSegments sections = 0 then none
    else some (withEnds D (buildStarts (totalSegments sections) D sections 0), D)

end AddChapters

/-! Supporting lemmas about the chapter-time estimator. -/

theorem withEnds_nil (D : Nat) : AddChapters.withEnds D [] = [] := rfl

theorem withEnds_cons_cons (D : Nat) (x y : String × Nat) (rest : List (String × Nat)) :
    AddChapters.withEnds D (x :: y :: rest)
      = { title := x.1, start_ms := x.2, end_ms := y.2 } :: AddChapters.withEnds D (y :: rest) := rfl

theorem withEnds_length (D : Nat) (l : List (String × Nat)) :
    (AddChapters.withEnds D l).length = l.length := by
  induction l with
  | nil => rfl
  | cons x xs ih =>
    cases xs with
    | nil => rfl
    | cons y rest => simpa [withEnds_cons_cons] using ih

theorem withEnds_map_title (D : Nat) (l : List (String × Nat)) :
    (AddChapters.withEnds D l).map (fun c => c.title) = l.map Prod.fst := by
  induction l with
  | nil => rfl
  | cons x xs ih =>
    cases xs with
    | nil => rfl
    | cons y rest => simpa [withEnds_cons_cons] using ih

theorem withEnds_get_start (D : Nat) (l : List (String × Nat)) :
    ∀ (i : Nat) (h : i < (AddChapters.withEnds D l).length) (h2 : i < l.length),
      ((AddChapters.withEnds D l).get ⟨i, h⟩).start_ms = (l.get ⟨i, h2⟩).2 := by
  induction l with
  | nil => intro i h h2; exact absurd h2 (by simp)
  | cons x xs ih =>
    cases xs with
    | nil =>
      intro i h h2
      have hi : i = 0 := Nat.lt_one_iff.mp (by simpa using h2)
      subst hi
      rfl
    | cons y rest =>
      intro i h h2
      cases i with
      | zero => rfl
      | succ j =>
        simp only [withEnds_cons_cons, List.get_cons_succ]
        exact ih j (by simpa [withEnds_cons_cons] using h) (by simpa using h2)

theorem withEnds_chain (D : Nat) (l : List (String × Nat)) :
    List.Chain' (fun a b => b.start_ms = a.end_ms) (AddChapters.withEnds D l) := by
  induction l with
  | nil => simp [withEnds_nil]
  | cons x xs ih =>
    cases xs with
    | nil => simp [AddChapters.withEnds]
    | cons y rest =>
      rw [withEnds_cons_cons]
      refine List.chain'_cons'.mpr ⟨?_, ih⟩
      intro z hz
      cases rest with
      | nil =>
        simp [AddChapters.withEnds] at hz
        subst hz
        rfl
      | cons w rest2 =>
        rw [withEnds_cons_cons] at hz
        simp at hz
        subst hz
        rfl

theorem getLast?_cons_of_ne {α : Type} (a : α) (l : List α) (h : l ≠ []) :
    (a :: l).getLast? = l.getLast? := by
  cases l with
  | nil => exact absurd rfl h
  | cons b l2 => exact List.getLast?_cons_cons

theorem withEnds_ne_nil (D : Nat) (x : String × Nat) (xs : List (String × Nat)) :
    AddChapters.withEnds D (x :: xs) ≠ [] := by
  intro hc
  have := congrArg List.length hc
  simp [withEnds_length] at this

theorem withEnds_getLast_end (D : Nat) :
    ∀ (l : List (String × Nat)), l ≠ [] →
      ((AddChapters.withEnds D l).getLast?).map (fun c => c.end_ms) = some D := by
  intro l
  induction l with
  | nil => intro h; exact absurd rfl h
  | cons x xs ih =>
    intro _
    cases xs with
    | nil => rfl
    | cons y rest =>
      rw [withEnds_cons_cons, getLast?_cons_of_ne _ _ (withEnds_ne_nil D y rest)]
      exact ih (by simp)

theorem withEnds_head_start (D : Nat) (l : List (String × Nat)) :
    ((AddChapters.withEnds D l).head?).map (fun c => c.start_ms) = l.head?.map Prod.snd := by
  cases l with
  | nil => rfl
  | cons x xs =>
    cases xs with
    | nil => rfl
    | cons y rest => rfl

theorem buildStarts_length (total D : Nat) (ss : List AddChapters.SectionC) :
    ∀ cur, (AddChapters.buildStarts total D ss cur).length = ss.length := by
  induction ss with
  | nil => intro cur; rfl
  | cons s rest ih => intro cur; simpa [AddChapters.buildStarts] using ih _

theorem buildStarts_map_fst (total D : Nat) (ss : List AddChapters.SectionC) :
    ∀ cur, (AddChapters.buildStarts total D ss cur).map Prod.fst = ss.map (fun s => s.title) := by
  induction ss with
  | nil => intro cur; rfl
  | cons s rest ih => intro cur; simpa [AddChapters.buildStarts] using ih _

theorem buildStarts_get_snd (total D : Nat) (ss : List AddChapters.SectionC) :
    ∀ (cur i : Nat) (h1 : i + 1 < (AddChapters.buildStarts total D ss cur).length)
      (h0 : i < (AddChapters.buildStarts total D ss cur).length) (hs : i < ss.length),
      ((AddChapters.buildStarts total D ss cur).get ⟨i + 1, h1⟩).2
        = ((AddChapters.buildStarts total D ss cur).get ⟨i, h0⟩).2
          + (ss.get ⟨i, hs⟩).segment_count * D / total := by
  induction ss with
  | nil => intro cur i h1 h0 hs; exact absurd hs (by simp)
  | cons s rest ih =>
    intro cur i h1 h0 hs
    cases i with
    | zero =>
      cases rest with
      | nil => simp [AddChapters.buildStarts, buildStarts_length] at h1
      | cons r rest2 => simp [AddChapters.buildStarts]
    | succ j =>
      simp only [AddChapters.buildStarts, List.get_cons_succ]
      have h1' : j + 1 < (AddChapters.buildStarts total D rest
          (cur + s.segment_count * D / total)).length := by
        simpa [AddChapters.buildStarts] using h1
      have h0' : j < (AddChapters.buildStarts total D rest
          (cur + s.segment_count * D / total)).length := by
        simpa [AddChapters.buildStarts] using h0
      simpa using ih (cur + s.segment_count * D / total) j h1' h0' (by simpa using hs)

theorem buildStarts_get_zero (total D : Nat) (s : AddChapters.SectionC)
    (rest : List AddChapters.SectionC) (cur : Nat)
    (h : 0 < (AddChapters.buildStarts total D (s :: rest) cur).length) :
    ((AddChapters.buildStarts total D (s :: rest) cur).get ⟨0, h⟩).2 = cur := rfl

theorem totalSegments_nil_of_eq_zero : AddChapters.totalSegments [] = 0 := rfl

/-- C3: for every section list with a positive total segment count and
every total duration D, calculate_chapter_times succeeds and produces
chapters in document order: the first chapter starts at 0, every chapter's
successor starts exactly where it ends (contiguous, no gaps or overlaps),
each section advances the running start by the truncated proportional
share of its segment count, and the last chapter ends at exactly D. -/
theorem spec_C3 (ss : List AddChapters.SectionC) (D : Nat)
    (h : 0 < AddChapters.totalSegments ss) :
    ∃ chs : List AddChapters.Chapter,
      AddChapters.calculate_chapter_times ss D = some (chs, D) ∧
      chs.map (fun c => c.title) = ss.map (fun s => s.title) ∧
      chs.length = ss.length ∧
      chs.head?.map (fun c => c.start_ms) = some 0 ∧
      List.Chain' (fun a b => b.start_ms = a.end_ms) chs ∧
      (∀ (i : Nat) (h1 : i + 1 < chs.length) (h0 : i < chs.length) (hs : i < ss.length),
        (chs.get ⟨i + 1, h1⟩).start_ms
          = (chs.get ⟨i, h0⟩).start_ms
            + (ss.get ⟨i, hs⟩).segment_count * D / AddChapters.totalSegments ss) ∧
      chs.getLast?.map (fun c => c.end_ms) = some D := by
  cases ss with
  | nil => simp [AddChapters.totalSegments] at h
  | cons s rest =>
    have hne : AddChapters.totalSegments (s :: rest) ≠ 0 := Nat.pos_iff_ne_zero.mp h
    refine ⟨AddChapters.withEnds D
      (AddChapters.buildStarts (AddChapters.totalSegments (s :: rest)) D (s :: rest) 0),
      ?_, ?_, ?_, ?_, ?_, ?_, ?_⟩
    · simp only [AddChapters.calculate_chapter_times]
      rw [if_neg hne]
    · rw [withEnds_map_title, buildStarts_map_fst]
    · rw [withEnds_length, buildStarts_length]
    · rw [withEnds_head_start]
      rfl
    · exact withEnds_chain _ _
    · intro i h1 h0 hs
      have hl : (AddChapters.withEnds D
          (AddChapters.buildStarts (AddChapters.totalSegments (s :: rest)) D (s :: rest) 0)).length
          = (AddChapters.buildStarts (AddChapters.totalSegments (s :: rest)) D (s :: rest) 0).length :=
        withEnds_length _ _
      have h1' : i + 1 < (AddChapters.buildStarts
          (AddChapters.totalSegments (s :: rest)) D (s :: rest) 0).length := hl ▸ h1
      have h0' : i < (AddChapters.buildStarts
          (AddChapters.totalSegments (s :: rest)) D (s :: rest) 0).length := hl ▸ h0
      rw [withEnds_get_start D _ (i + 1) h1 h1', withEnds_get_start D _ i h0 h0']
      exact buildStarts_get_snd _ D (s :: rest) 0 i h1' h0' hs
    · exact withEnds_getLast_end D _ (by simp [AddChapters.buildStarts])

/-- Witness for C3 at the worked example of the specification: sections
with segment counts one and three and a total duration of 8000
milliseconds give chapters from 0 to 2000 and from 2000 to 8000. -/
theorem spec_C3_witness :
    (0 < AddChapters.totalSegments [⟨ "A", 1⟩, ⟨ "B", 3⟩]) ∧
    AddChapters.calculate_chapter_times [⟨ "A", 1⟩, ⟨ "B", 3⟩] 8000
      = some ([⟨ "A", 0, 2000⟩, ⟨ "B", 2000, 8000⟩], 8000) := by
  have h0 : 0 < AddChapters.totalSegments [⟨ "A", 1⟩, ⟨ "B", 3⟩] := by decide
  obtain ⟨chs, hc, -⟩ := spec_C3 [⟨ "A", 1⟩, ⟨ "B", 3⟩] 8000 h0
  exact ⟨h0, by decide⟩

/-! Supporting lemmas about the precise-timestamp loader and the
resolution policy. -/

theorem dictGet_entry_paper_name (t s : String) :
    ExtractTimestamps.dictGet "paper_name" [( "title", t), ( "timestamp_str", s)] = none := rfl

theorem dictGet_entry_quick_hits (t s : String) :
    ExtractTimestamps.dictGet "is_quick_hits" [( "title", t), ( "timestamp_str", s)] = none := rfl

theorem convertItem_shape (it : ExtractTimestamps.PItem) (e : List (String × String))
    (h : ExtractTimestamps.convertItem it = some e) :
    ∃ t ms, it.title = some t ∧ it.timestamp_ms = some ms ∧
      e = [( "title", t), ( "timestamp_str", ExtractTimestamps.formatTimestamp ms)] := by
  cases it with
  | mk ti ms pn qh =>
    cases ti with
    | none => simp [ExtractTimestamps.convertItem] at h
    | some t =>
      cases ms with
      | none => simp [ExtractTimestamps.convertItem] at h
      | some m =>
        simp only [ExtractTimestamps.convertItem, Option.some.injEq] at h
        exact ⟨t, m, rfl, rfl, h.symm⟩

theorem loaded_entry_no_paper_name (items : List ExtractTimestamps.PItem)
    (e : List (String × String)) (he : e ∈ items.filterMap ExtractTimestamps.convertItem) :
    ExtractTimestamps.dictGet "paper_name" e = none := by
  obtain ⟨it, -, hconv⟩ := List.mem_filterMap.mp he
  obtain ⟨t, m, -, -, rfl⟩ := convertItem_shape it e hconv
  exact dictGet_entry_paper_name _ _

theorem buildPreciseMapping_fst (l : List (List (String × String))) :
    ∀ acc : List String × Option String,
      (∀ e ∈ l, ExtractTimestamps.pyTruthy (ExtractTimestamps.dictGet "paper_name" e) = false) →
        (ExtractTimestamps.buildPreciseMapping l acc).1 = acc.1 := by
  induction l with
  | nil => intro acc _; rfl
  | cons ts rest ih =>
    intro acc hall
    have hts : ExtractTimestamps.pyTruthy (ExtractTimestamps.dictGet "paper_name" ts) = false :=
      hall ts (by simp)
    simp only [ExtractTimestamps.buildPreciseMapping, hts, Bool.false_eq_true, if_false]
    exact ih _ (fun e he => hall e (by simp [he]))

theorem precisePaperBranch_none (d : Option String) (f : ExtractTimestamps.SideFile) :
    ExtractTimestamps.precisePaperBranch d f = none := by
  cases hd : ExtractTimestamps.pyTruthy d with
  | false => simp [ExtractTimestamps.precisePaperBranch, hd]
  | true =>
    cases f with
    | missing => simp [ExtractTimestamps.precisePaperBranch, ExtractTimestamps.load_precise_timestamps, hd]
    | loadError => simp [ExtractTimestamps.precisePaperBranch, ExtractTimestamps.load_precise_timestamps, hd]
    | ok items =>
      simp only [ExtractTimestamps.precisePaperBranch, ExtractTimestamps.load_precise_timestamps,
        hd, if_true]
      by_cases hpe : (items.filterMap ExtractTimestamps.convertItem).isEmpty
      · simp [hpe]
      · have hfst : (ExtractTimestamps.buildPreciseMapping
            (items.filterMap ExtractTimestamps.convertItem) ([], none)).1 = [] :=
          buildPreciseMapping_fst _ _ (fun e he => by
            rw [loaded_entry_no_paper_name items e he]; rfl)
        simp [hpe, hfst]

theorem gpt_estimation_always (en : String → Option String) (script : String) (D : Nat)
    (d : Option String) (f : ExtractTimestamps.SideFile) :
    (ExtractTimestamps.get_paper_timestamps en script D d f).2 = true := by
  simp only [ExtractTimestamps.get_paper_timestamps, precisePaperBranch_none]
  by_cases h : ExtractTimestamps.totalSegments (ExtractTimestamps.parse_script_sections en script) = 0
  · simp [h]
  · simp [h]

/-- C1: the claim asserts that when a date is supplied and the side file
yields a usable result, get_paper_timestamps uses the precise timestamps
and never runs the proportional estimator, and in particular that one
deep-dive side-file entry at 90000 milliseconds resolves to 01:30 with
the estimator not invoked.  The code contradicts this: the loader strips
the paper_name and is_quick_hits fields from every entry, so the deep-dive
list built from loaded entries is always empty, the precise branch of
get_paper_timestamps never fires, and the estimation walk always runs
(first conjunct).  At the claim's own example the feed-builder resolver
therefore returns the estimated 00:00 rather than the precise 01:30
(second conjunct), while the plain resolver extract_timestamps does
return the precise entry unchanged (third conjunct). -/
theorem spec_C1_code_bug :
    (∀ (en : String → Option String) (script : String) (D : Nat)
        (d : Option String) (f : ExtractTimestamps.SideFile),
      (ExtractTimestamps.get_paper_timestamps en script D d f).2 = true) ∧
    (ExtractTimestamps.get_paper_timestamps (fun _ => none)
        "## Deep Dive 1: X\n**Alex**: hi\n**Maya**: yo" 120000 (some "2026-02-09")
        (.ok [⟨some "Deep Dive: X", some 90000, some "X", some false⟩])
      = (.mapping [ "00:00"] none, true)) ∧
    (ExtractTimestamps.extract_timestamps (fun _ => none)
        "## Deep Dive 1: X\n**Alex**: hi\n**Maya**: yo" 120000 (some "2026-02-09")
        (.ok [⟨some "Deep Dive: X", some 90000, some "X", some false⟩])
      = ([[( "title", "Deep Dive: X"), ( "timestamp_str", "01:30")]], false)) := by
  refine ⟨gpt_estimation_always, by decide, by decide⟩

/-- C2: the timestamp variants satisfy the claim, but the chapter-time
variant does not.  First conjunct: calculate_proportional_timestamps
returns the empty list for every section list with zero total segments.
Second conjunct: get_paper_timestamps returns the empty dictionary for
every script whose parsed sections have zero total segments.  Third
conjunct: calculate_chapter_times, which has no zero-total guard, raises
ZeroDivisionError (modelled as none) on a non-empty section list with
zero total segments, contradicting the claim that it returns an empty
result and never raises. -/
theorem spec_C2_code_bug :
    (∀ (ss : List ExtractTimestamps.SectionR) (D : Nat),
      ExtractTimestamps.totalSegments ss = 0 →
        ExtractTimestamps.calculate_proportional_timestamps D ss = []) ∧
    (∀ (en : String → Option String) (script : String) (D : Nat)
        (d : Option String) (f : ExtractTimestamps.SideFile),
      ExtractTimestamps.totalSegments (ExtractTimestamps.parse_script_sections en script) = 0 →
        (ExtractTimestamps.get_paper_timestamps en script D d f).1 = .empty) ∧
    AddChapters.calculate_chapter_times [⟨ "Cold Open", 0⟩] 8000 = none := by
  refine ⟨?_, ?_, by decide⟩
  · intro ss D h
    simp [ExtractTimestamps.calculate_proportional_timestamps, h]
  · intro en script D d f h
    simp [ExtractTimestamps.get_paper_timestamps, precisePaperBranch_none, h]

/-- Witness for C2: a concrete zero-segment section list and a concrete
script with no headers, at which both hypotheses of the theorem are
discharged. -/
theorem spec_C2_witness :
    (ExtractTimestamps.totalSegments [⟨ "A", 0, none, false⟩] = 0) ∧
    ExtractTimestamps.calculate_proportional_timestamps 5000 [⟨ "A", 0, none, false⟩] = [] ∧
    (ExtractTimestamps.totalSegments
      (ExtractTimestamps.parse_script_sections (fun _ => none) "plain text, no headers") = 0) ∧
    (ExtractTimestamps.get_paper_timestamps (fun _ => none) "plain text, no headers"
      1000 none .missing).1 = .empty := by
  refine ⟨by decide, spec_C2_code_bug.1 _ 5000 (by decide), by decide,
    spec_C2_code_bug.2.1 _ _ 1000 none .missing (by decide)⟩

/-- C4 counterexample: for the title of the claim's example the duration
annotation sits in the middle of the title, the stripping regex is
end-anchored, and so the cleaned title keeps the annotation; it is not
the claimed "Deep Dive 2: Scaling Laws for Retrieval". -/
theorem spec_C4_counterexample :
    ((ExtractTimestamps.parseStandardSections
        "## Deep Dive 2 (3 min): Scaling Laws for Retrieval\n**Alex**: hi").map
      (fun s => s.title) = [ "Deep Dive 2 (3 min): Scaling Laws for Retrieval"]) ∧
    ¬ ((ExtractTimestamps.parseStandardSections
        "## Deep Dive 2 (3 min): Scaling Laws for Retrieval\n**Alex**: hi").map
      (fun s => s.title) = [ "Deep Dive 2: Scaling Laws for Retrieval"]) := by
  exact ⟨by decide, by decide⟩

/-- C4 amended: the cleaned title keeps the non-trailing annotation while
the paper name is still extracted, because the first title template
tolerates a parenthesised group before the colon; a title whose
annotation is trailing is stripped as the claim describes. -/
theorem spec_C4_amended :
    (ExtractTimestamps.parseStandardSections
        "## Deep Dive 2 (3 min): Scaling Laws for Retrieval\n**Alex**: hi"
      = [⟨ "Deep Dive 2 (3 min): Scaling Laws for Retrieval", 1,
          some "Scaling Laws for Retrieval", false⟩]) ∧
    stripDurationChars ( "Deep Dive 2: Scaling Laws for Retrieval (3 min)".toList)
      = ( "Deep Dive 2: Scaling Laws for Retrieval".toList) := by
  exact ⟨by decide, by decide⟩

/-- C6 counterexample: a body line that does not begin with a dialogue
tag but contains one is still counted, because the counting regex is not
anchored at the line start; the claimed equivalence between counting and
beginning-with-a-tag fails on this body. -/
theorem spec_C6_counterexample :
    ExtractTimestamps.parseStandardSections "## S\nnote **Alex**: hi"
      = [⟨ "S", 1, none, false⟩] ∧
    matchesTagAt ( "note **Alex**: hi".toList) = false := by
  exact ⟨by decide, by decide⟩

/-- Positional characterisation of the dialogue-tag count: the count over
a body equals the number of positions at which the tag pattern matches. -/
theorem countTags_positions (cs : List Char) :
    countTags cs = (List.range cs.length).countP (fun i => matchesTagAt (cs.drop i)) := by
  induction cs with
  | nil => rfl
  | cons c rest ih =>
    have hmap : ((List.range rest.length).map Nat.succ).countP
          (fun i => matchesTagAt ((c :: rest).drop i))
        = (List.range rest.length).countP (fun i => matchesTagAt (rest.drop i)) := by
      rw [List.countP_map]
      rfl
    rw [List.length_cons, List.range_succ_eq_map, List.countP_cons, hmap, ← ih]
    simp only [List.drop_zero, countTags]
    omega

/-- C6 amended: the segment count of a section body is the number of
positions at which the dialogue-tag pattern matches, wherever in a line
the tag occurs (first conjunct); the claim's three-line example still
counts two segments under both parsers (second and third conjuncts); and
a tag occurring mid-line is counted even though the line does not begin
with it (fourth conjunct). -/
theorem spec_C6_amended :
    (∀ cs : List Char,
      countTags cs = (List.range cs.length).countP (fun i => matchesTagAt (cs.drop i))) ∧
    ExtractTimestamps.parseStandardSections
        "## S\n**Alex**: hi\n**Maya**: hello\nplain text with no tag"
      = [⟨ "S", 2, none, false⟩] ∧
    AddChapters.parse_script_sections
        "## S\n**Alex**: hi\n**Maya**: hello\nplain text with no tag"
      = [⟨ "S", 2⟩] ∧
    countTags ( "note **Alex**: hi".toList) = 1 := by
  exact ⟨countTags_positions, by decide, by decide, by decide⟩

/-- Conversion of a side-file element missing either required field is
skipped. -/
theorem convertItem_none (bad : ExtractTimestamps.PItem)
    (h : bad.title = none ∨ bad.timestamp_ms = none) :
    ExtractTimestamps.convertItem bad = none := by
  cases bad with
  | mk ti ms pn qh =>
    rcases h with h | h
    · simp only at h
      subst h
      rfl
    · simp only at h
      subst h
      cases ti <;> rfl

/-- C7 counterexample: for a missing side file the loader returns None
without printing the warning, while the claim asserts that a warning is
logged for every failure condition including a missing file. -/
theorem spec_C7_counterexample :
    ExtractTimestamps.load_precise_timestamps (some "2026-02-09") .missing = (none, false) := by
  decide

/-- C7 amended: the loader returns None for a missing, unreadable or
malformed side file and never raises, but the warning is printed only in
the exception cases (unreadable or malformed), not for a missing file;
for a well-formed array every element missing the title or the timestamp
is silently skipped while the remaining elements are still converted. -/
theorem spec_C7_amended (d : String) (hd : d.isEmpty = false) :
    ExtractTimestamps.load_precise_timestamps (some d) .missing = (none, false) ∧
    ExtractTimestamps.load_precise_timestamps (some d) .loadError = (none, true) ∧
    (∀ items : List ExtractTimestamps.PItem,
      (ExtractTimestamps.load_precise_timestamps (some d) (.ok items)).1
        = some (items.filterMap ExtractTimestamps.convertItem)) ∧
    (∀ (items1 items2 : List ExtractTimestamps.PItem) (bad : ExtractTimestamps.PItem),
      bad.title = none ∨ bad.timestamp_ms = none →
        (ExtractTimestamps.load_precise_timestamps (some d) (.ok (items1 ++ bad :: items2))).1
          = (ExtractTimestamps.load_precise_timestamps (some d) (.ok (items1 ++ items2))).1) := by
  have hdt : ExtractTimestamps.pyTruthy (some d) = true := by
    simp [ExtractTimestamps.pyTruthy, hd]
  refine ⟨?_, ?_, ?_, ?_⟩
  · simp [ExtractTimestamps.load_precise_timestamps, hdt]
  · simp [ExtractTimestamps.load_precise_timestamps, hdt]
  · intro items
    simp [ExtractTimestamps.load_precise_timestamps, hdt]
  · intro items1 items2 bad hbad
    simp [ExtractTimestamps.load_precise_timestamps, hdt, List.filterMap_append,
      List.filterMap_cons, convertItem_none bad hbad]

/-- Witness for C7 at a concrete date and side file: the warning is
printed for the load-error case, and dropping an element without a title
leaves the converted list unchanged. -/
theorem spec_C7_witness :
    (( "2026-02-09" : String).isEmpty = false) ∧
    ExtractTimestamps.load_precise_timestamps (some "2026-02-09") .loadError = (none, true) ∧
    (ExtractTimestamps.load_precise_timestamps (some "2026-02-09")
        (.ok [⟨some "T", some 65000, none, none⟩, ⟨none, some 5, none, none⟩])).1
      = (ExtractTimestamps.load_precise_timestamps (some "2026-02-09")
        (.ok [⟨some "T", some 65000, none, none⟩])).1 := by
  have h := spec_C7_amended "2026-02-09" (by decide)
  refine ⟨by decide, h.2.1, ?_⟩
  have h4 := h.2.2.2 [⟨some "T", some 65000, none, none⟩] []
    ⟨none, some 5, none, none⟩ (Or.inl rfl)
  simpa using h4

/-- C8: the MM:SS formatting round-trips: reconstructing milliseconds
from the minutes and seconds components recovers the input truncated to
the whole second, and the formatted string is built from exactly those
zero-padded components. -/
theorem spec_C8 (ms : Nat) :
    (ExtractTimestamps.minutesOf ms * 60 + ExtractTimestamps.secondsOf ms) * 1000
      = ms / 1000 * 1000 ∧
    ExtractTimestamps.formatTimestamp ms
      = ExtractTimestamps.pad2 (ExtractTimestamps.minutesOf ms) ++ ":"
        ++ ExtractTimestamps.pad2 (ExtractTimestamps.secondsOf ms) := by
  refine ⟨?_, rfl⟩
  simp only [ExtractTimestamps.minutesOf, ExtractTimestamps.secondsOf]
  omega

/-- C9: every entry produced by the loader from a well-formed side file
carries exactly the keys title and timestamp_str, in that order, and in
particular the paper_name and is_quick_hits fields of the side-file
elements are not carried over. -/
theorem spec_C9 (d : String) (items : List ExtractTimestamps.PItem)
    (l : List (List (String × String))) (e : List (String × String))
    (hl : (ExtractTimestamps.load_precise_timestamps (some d) (.ok items)).1 = some l)
    (he : e ∈ l) :
    e.map Prod.fst = [ "title", "timestamp_str"] ∧
    ExtractTimestamps.dictGet "paper_name" e = none ∧
    ExtractTimestamps.dictGet "is_quick_hits" e = none := by
  by_cases hd : ExtractTimestamps.pyTruthy (some d) = true
  · rw [ExtractTimestamps.load_precise_timestamps, if_pos hd] at hl
    simp only [Option.some.injEq] at hl
    subst hl
    obtain ⟨it, -, hconv⟩ := List.mem_filterMap.mp he
    obtain ⟨t, m, -, -, rfl⟩ := convertItem_shape it e hconv
    exact ⟨rfl, dictGet_entry_paper_name _ _, dictGet_entry_quick_hits _ _⟩
  · rw [ExtractTimestamps.load_precise_timestamps, if_neg hd] at hl
    simp at hl

/-- Witness for C9 at a concrete side file whose element carries both
extra fields: the loaded entry has exactly the two expected keys. -/
theorem spec_C9_witness :
    ((ExtractTimestamps.load_precise_timestamps (some "2026-02-09")
        (.ok [⟨some "T", some 90000, some "P", some true⟩])).1
      = some [[( "title", "T"), ( "timestamp_str", "01:30")]]) ∧
    ([( "title", "T"), ( "timestamp_str", "01:30")].map Prod.fst
        = [ "title", "timestamp_str"] ∧
      ExtractTimestamps.dictGet "paper_name"
        [( "title", "T"), ( "timestamp_str", "01:30")] = none ∧
      ExtractTimestamps.dictGet "is_quick_hits"
        [( "title", "T"), ( "timestamp_str", "01:30")] = none) := by
  refine ⟨by decide,
    spec_C9 "2026-02-09" [⟨some "T", some 90000, some "P", some true⟩]
      [[( "title", "T"), ( "timestamp_str", "01:30")]]
      [( "title", "T"), ( "timestamp_str", "01:30")] (by decide) (by simp)⟩

/-! Supporting lemmas about line splitting, header splitting and the
hand-compiled scanners. -/

theorem splitNl_ne_nil (cs : List Char) : splitNl cs ≠ [] := by
  induction cs with
  | nil => simp [splitNl]
  | cons c rest ih =>
    simp only [splitNl]
    by_cases h : c = '\n'
    · simp [h]
    · simp only [h, if_false]
      cases hs : splitNl rest with
      | nil => exact absurd hs ih
      | cons l ls => simp [consHead]

theorem splitNl_append (a b : List Char) :
    splitNl (a ++ '\n' :: b) = splitNl a ++ splitNl b := by
  induction a with
  | nil => simp [splitNl]
  | cons c a2 ih =>
    by_cases h : c = '\n'
    · subst h
      simp [splitNl, ih]
    · simp only [List.cons_append, splitNl, h, if_false]
      cases hs : splitNl a2 with
      | nil => exact absurd hs (splitNl_ne_nil a2)
      | cons l ls =>
        simp only [List.append_eq]
        rw [ih, hs]
        simp [consHead]

theorem reSplitGo_ne_nil (hp : List Char) (ls : List (List Char)) : reSplitGo hp ls ≠ [] := by
  induction ls with
  | nil => simp [reSplitGo]
  | cons l rest ih =>
    simp only [reSplitGo]
    cases hs : reSplitGo hp rest with
    | nil => simp
    | cons p0 ps => by_cases hh : hp.isPrefixOf l <;> simp [hh]

theorem reSplitGo_cons_tail (hp : List Char) (l : List Char) (rest : List (List Char))
    (h : hp.isPrefixOf l = false) :
    (reSplitGo hp (l :: rest)).tail = (reSplitGo hp rest).tail := by
  simp only [reSplitGo]
  cases hs : reSplitGo hp rest with
  | nil => exact absurd hs (reSplitGo_ne_nil hp rest)
  | cons p0 ps => simp [h]

theorem reSplitGo_append_tail (hp : List Char) (pre ls : List (List Char))
    (h : ∀ l ∈ pre, hp.isPrefixOf l = false) :
    (reSplitGo hp (pre ++ ls)).tail = (reSplitGo hp ls).tail := by
  induction pre with
  | nil => rfl
  | cons l pre2 ih =>
    rw [List.cons_append, reSplitGo_cons_tail hp l _ (h l (by simp))]
    exact ih (fun x hx => h x (by simp [hx]))

theorem reSplitGo_tail_nil (hp : List Char) (ls : List (List Char))
    (h : ∀ l ∈ ls, hp.isPrefixOf l = false) :
    (reSplitGo hp ls).tail = [] := by
  have h2 := reSplitGo_append_tail hp ls [] h
  simpa [reSplitGo] using h2

theorem string_toList_append_newline (pre content : String) :
    (pre ++ "\n" ++ content).toList = pre.toList ++ '\n' :: content.toList := by
  show ((pre ++ "\n") ++ content).data = pre.data ++ '\n' :: content.data
  rw [String.data_append, String.data_append]
  simp

theorem headerParts_drop_preamble (hp : List Char) (pre content : String)
    (h : ∀ l ∈ splitNl pre.toList, hp.isPrefixOf l = false) :
    headerParts hp (pre ++ "\n" ++ content) = headerParts hp content := by
  unfold headerParts
  rw [string_toList_append_newline, splitNl_append]
  exact reSplitGo_append_tail hp _ _ h

theorem headerParts_nil (hp : List Char) (s : String)
    (h : ∀ l ∈ splitNl s.toList, hp.isPrefixOf l = false) :
    headerParts hp s = [] :=
  reSplitGo_tail_nil hp _ h

/-- C10: in all three strategies of extract_timestamps.py (and in the
parser of add_chapters.py), script text before the first header line of
the strategy's own level is discarded.  The hypotheses are per strategy:
the three parsers that split at second-level headers tolerate any
preamble free of second-level header lines, even one containing
third-level header lines, and the segment-format parser tolerates any
preamble free of third-level header lines, even one containing
second-level header lines such as a Deep Dives block header.  In each
case prefixing such a preamble leaves the parser's output unchanged, and
the preamble alone parses to no sections, so its dialogue lines are
counted in no section. -/
theorem spec_C10 (en : String → Option String) :
    (∀ pre content : String,
      (∀ l ∈ splitNl pre.toList, ( "## ".toList).isPrefixOf l = false) →
        ExtractTimestamps.parseStandardSections (pre ++ "\n" ++ content)
          = ExtractTimestamps.parseStandardSections content ∧
        ExtractTimestamps.parseDeepDivesBlock en (pre ++ "\n" ++ content)
          = ExtractTimestamps.parseDeepDivesBlock en content ∧
        AddChapters.parse_script_sections (pre ++ "\n" ++ content)
          = AddChapters.parse_script_sections content ∧
        ExtractTimestamps.parseStandardSections pre = [] ∧
        ExtractTimestamps.parseDeepDivesBlock en pre = [] ∧
        AddChapters.parse_script_sections pre = []) ∧
    (∀ pre content : String,
      (∀ l ∈ splitNl pre.toList, ( "### ".toList).isPrefixOf l = false) →
        ExtractTimestamps.parseSegmentFormat (pre ++ "\n" ++ content)
          = ExtractTimestamps.parseSegmentFormat content ∧
        ExtractTimestamps.parseSegmentFormat pre = []) := by
  constructor
  · intro pre content h2
    refine ⟨?_, ?_, ?_, ?_, ?_, ?_⟩
    · unfold ExtractTimestamps.parseStandardSections
      rw [headerParts_drop_preamble _ _ _ h2]
    · unfold ExtractTimestamps.parseDeepDivesBlock
      rw [headerParts_drop_preamble _ _ _ h2]
    · unfold AddChapters.parse_script_sections
      rw [headerParts_drop_preamble _ _ _ h2]
    · unfold ExtractTimestamps.parseStandardSections
      rw [headerParts_nil _ _ h2]
      rfl
    · unfold ExtractTimestamps.parseDeepDivesBlock
      rw [headerParts_nil _ _ h2]
      rfl
    · unfold AddChapters.parse_script_sections
      rw [headerParts_nil _ _ h2]
      rfl
  · intro pre content h3
    refine ⟨?_, ?_⟩
    · unfold ExtractTimestamps.parseSegmentFormat
      rw [headerParts_drop_preamble _ _ _ h3]
    · unfold ExtractTimestamps.parseSegmentFormat
      rw [headerParts_nil _ _ h3]
      rfl

/-- Witness for C10: a dialogue-line preamble leaves the standard parse
unchanged and alone parses to nothing, and a preamble containing a
second-level Deep Dives header line (the mixed-dialect scenario) leaves
the segment-format parse unchanged and alone parses to nothing. -/
theorem spec_C10_witness :
    ExtractTimestamps.parseStandardSections
        ( "intro chatter **Alex**: hello" ++ "\n" ++ "## S\n**Maya**: yo")
      = ExtractTimestamps.parseStandardSections "## S\n**Maya**: yo" ∧
    ExtractTimestamps.parseStandardSections "intro chatter **Alex**: hello" = [] ∧
    ExtractTimestamps.parseSegmentFormat
        ( "## Deep Dives\n**Alex**: hi" ++ "\n" ++ "### SEGMENT: PAPER 1 — T\n**Bo**: x")
      = ExtractTimestamps.parseSegmentFormat "### SEGMENT: PAPER 1 — T\n**Bo**: x" ∧
    ExtractTimestamps.parseSegmentFormat "## Deep Dives\n**Alex**: hi" = [] := by
  have h1 := (spec_C10 (fun _ => none)).1 "intro chatter **Alex**: hello"
    "## S\n**Maya**: yo" (by decide)
  have h2 := (spec_C10 (fun _ => none)).2 "## Deep Dives\n**Alex**: hi"
    "### SEGMENT: PAPER 1 — T\n**Bo**: x" (by decide)
  exact ⟨h1.1, h1.2.2.2.1, h2.1, h2.2⟩

theorem drop_length_takeWhile {α : Type} (p : α → Bool) (l : List α) :
    l.drop (l.takeWhile p).length = l.dropWhile p := by
  induction l with
  | nil => rfl
  | cons c r ih =>
    by_cases h : p c = true
    · simp [List.takeWhile_cons, List.dropWhile_cons, h, ih]
    · simp [List.takeWhile_cons, List.dropWhile_cons, h]

theorem mem_takeWhile_true {α : Type} (p : α → Bool) (l : List α) :
    ∀ a ∈ l.takeWhile p, p a = true := by
  induction l with
  | nil => simp
  | cons c r ih =>
    by_cases h : p c = true
    · simp only [List.takeWhile_cons, h, if_true]
      intro a ha
      rcases List.mem_cons.mp ha with rfl | ha2
      · exact h
      · exact ih a ha2
    · simp [List.takeWhile_cons, h]

theorem head_dropWhile_false {α : Type} (p : α → Bool) (l : List α) :
    ∀ c cs2, l.dropWhile p = c :: cs2 → p c = false := by
  induction l with
  | nil => intro c cs2 h; simp [List.dropWhile] at h
  | cons a r ih =>
    intro c cs2 h
    by_cases ha : p a = true
    · rw [List.dropWhile_cons, if_pos ha] at h
      exact ih c cs2 h
    · rw [List.dropWhile_cons, if_neg ha] at h
      injection h with h1 h2
      subst h1
      simpa using ha

theorem dropWhile_append_ne_nil {α : Type} (p : α → Bool) (l1 l2 : List α)
    (h : l1.dropWhile p ≠ []) :
    (l1 ++ l2).dropWhile p = l1.dropWhile p ++ l2 := by
  induction l1 with
  | nil => simp [List.dropWhile] at h
  | cons c r ih =>
    by_cases hc : p c = true
    · rw [List.dropWhile_cons, if_pos hc] at h
      rw [List.cons_append, List.dropWhile_cons, if_pos hc, List.dropWhile_cons, if_pos hc]
      exact ih h
    · rw [List.cons_append, List.dropWhile_cons, if_neg hc, List.dropWhile_cons, if_neg hc]
      rfl

theorem takeWhile_append_stop {α : Type} (p : α → Bool) (t r : List α)
    (ht : ∀ a ∈ t, p a = true)
    (hr : ∀ c cs2, r = c :: cs2 → p c = false) :
    (t ++ r).takeWhile p = t := by
  induction t with
  | nil =>
    cases r with
    | nil => rfl
    | cons c cs2 => simp [List.takeWhile_cons, hr c cs2 rfl]
  | cons a t2 ih =>
    have ha := ht a (by simp)
    rw [List.cons_append, List.takeWhile_cons, if_pos ha,
      ih (fun x hx => ht x (by simp [hx]))]

theorem takeWhile_append_all {α : Type} (p : α → Bool) (t r : List α)
    (ht : ∀ a ∈ t, p a = true) :
    (t ++ r).takeWhile p = t ++ r.takeWhile p := by
  induction t with
  | nil => rfl
  | cons a t2 ih =>
    have ha := ht a (by simp)
    rw [List.cons_append, List.takeWhile_cons, if_pos ha,
      ih (fun x hx => ht x (by simp [hx]))]
    rfl

theorem isPrefixOf_eq_true_iff (lit : List Char) :
    ∀ cs : List Char, lit.isPrefixOf cs = true ↔ ∃ t, cs = lit ++ t := by
  induction lit with
  | nil => intro cs; simp [List.isPrefixOf]
  | cons a l ih =>
    intro cs
    cases cs with
    | nil => simp [List.isPrefixOf]
    | cons c r =>
      simp only [List.isPrefixOf, Bool.and_eq_true, beq_iff_eq]
      constructor
      · rintro ⟨rfl, h2⟩
        obtain ⟨t, rfl⟩ := (ih r).mp h2
        exact ⟨t, rfl⟩
      · rintro ⟨t, ht⟩
        injection ht with h1 h2
        subst h1
        exact ⟨rfl, (ih r).mpr ⟨t, h2⟩⟩

theorem dropLit_eq_some (lit cs r : List Char) :
    dropLit lit cs = some r ↔ cs = lit ++ r := by
  unfold dropLit
  constructor
  · intro h
    by_cases hp : lit.isPrefixOf cs = true
    · rw [if_pos hp] at h
      obtain ⟨t, rfl⟩ := (isPrefixOf_eq_true_iff lit cs).mp hp
      simp only [Option.some.injEq] at h
      rw [List.drop_left] at h
      rw [h]
    · rw [if_neg hp] at h
      exact absurd h (by simp)
  · intro h
    subst h
    rw [if_pos ((isPrefixOf_eq_true_iff lit _).mpr ⟨r, rfl⟩), List.drop_left]

theorem titleTailOk_append (r ex : List Char) (h : titleTailOk r = true) :
    titleTailOk (r ++ ex) = true := by
  unfold titleTailOk at h ⊢
  by_cases hdw : r.dropWhile pyIsSpace = []
  · have hall : ∀ a ∈ r, pyIsSpace a = true := by
      intro a ha
      by_contra hc
      have := List.dropWhile_eq_nil_iff.mp hdw a ha
      simp_all
    have htw : r.takeWhile pyIsSpace = r := by
      have h2 := takeWhile_append_all pyIsSpace r [] hall
      simpa using h2
    rw [hdw] at h
    rw [htw] at h
    simp only [List.isEmpty_nil, Bool.not_true, Bool.or_false] at h
    rw [takeWhile_append_all pyIsSpace r ex hall, List.any_append, h]
    simp
  · rw [dropWhile_append_ne_nil pyIsSpace r ex hdw]
    have hne : ((r.dropWhile pyIsSpace) ++ ex).isEmpty = false := by
      cases hc : r.dropWhile pyIsSpace with
      | nil => exact absurd hc hdw
      | cons a b => simp
    simp [hne]

/-- The segment-header scanner is stable under appending: a match of the
detection regex is preserved when further text follows, which is what
lets a match found on one line extend to the whole script. -/
theorem segMatchAt_append (cs ex : List Char) (h : segMatchAt cs = true) :
    segMatchAt (cs ++ ex) = true := by
  simp only [segMatchAt] at h ⊢
  cases h1 : dropLit segLit cs with
  | none => simp [h1] at h
  | some r1 =>
  simp only [h1] at h
  cases h2 : dropLit paperLit (r1.dropWhile pyIsSpace) with
  | none => simp [h2] at h
  | some r2 =>
  simp only [h2] at h
  cases h3 : eatDigits (r2.dropWhile pyIsSpace) with
  | none => simp [h3] at h
  | some r3 =>
  simp only [h3] at h
  cases h4 : eatDash (r3.dropWhile pyIsSpace) with
  | none => simp [h4] at h
  | some r4 =>
  simp only [h4] at h
  have hcs : cs = segLit ++ r1 := (dropLit_eq_some _ _ _).mp h1
  have e1 : dropLit segLit (cs ++ ex) = some (r1 ++ ex) := by
    apply (dropLit_eq_some _ _ _).mpr
    rw [hcs, List.append_assoc]
  have hr1 : r1.dropWhile pyIsSpace = paperLit ++ r2 := (dropLit_eq_some _ _ _).mp h2
  have hr1ne : r1.dropWhile pyIsSpace ≠ [] := by rw [hr1]; simp [paperLit]
  have e2 : dropLit paperLit ((r1 ++ ex).dropWhile pyIsSpace) = some (r2 ++ ex) := by
    rw [dropWhile_append_ne_nil pyIsSpace r1 ex hr1ne, hr1, List.append_assoc]
    exact (dropLit_eq_some _ _ _).mpr rfl
  have hw := h3
  unfold eatDigits at hw
  by_cases hd : ((r2.dropWhile pyIsSpace).takeWhile Char.isDigit).isEmpty = true
  · rw [if_pos hd] at hw
    exact absurd hw (by simp)
  · rw [if_neg hd] at hw
    simp only [Option.some.injEq] at hw
    have hr3 : r3 = (r2.dropWhile pyIsSpace).dropWhile Char.isDigit := by
      rw [← hw, drop_length_takeWhile]
    have hr3ne : r3 ≠ [] := by
      intro hnil
      rw [hnil] at h4
      simp [eatDash, List.dropWhile] at h4
    have hwdec : r2.dropWhile pyIsSpace
        = (r2.dropWhile pyIsSpace).takeWhile Char.isDigit ++ r3 := by
      rw [hr3, List.takeWhile_append_dropWhile]
    have hwne : r2.dropWhile pyIsSpace ≠ [] := by
      intro hnil
      rw [hnil] at hd
      simp [List.takeWhile] at hd
    have e3 : eatDigits ((r2 ++ ex).dropWhile pyIsSpace) = some (r3 ++ ex) := by
      rw [dropWhile_append_ne_nil pyIsSpace r2 ex hwne]
      unfold eatDigits
      have htw : ((r2.dropWhile pyIsSpace) ++ ex).takeWhile Char.isDigit
          = (r2.dropWhile pyIsSpace).takeWhile Char.isDigit := by
        conv_lhs => rw [hwdec]
        rw [List.append_assoc]
        apply takeWhile_append_stop
        · exact mem_takeWhile_true _ _
        · intro c cs2 hcc
          cases hr3c : r3 with
          | nil => exact absurd hr3c hr3ne
          | cons c0 r3t =>
            rw [hr3c, List.cons_append] at hcc
            injection hcc with hda hdb
            subst hda
            apply head_dropWhile_false Char.isDigit (r2.dropWhile pyIsSpace) c0 r3t
            rw [← hr3]
            exact hr3c
      rw [htw, if_neg hd]
      have hsplit : (r2.dropWhile pyIsSpace) ++ ex
          = (r2.dropWhile pyIsSpace).takeWhile Char.isDigit ++ (r3 ++ ex) := by
        rw [← List.append_assoc, ← hwdec]
      have hdrop : ((r2.dropWhile pyIsSpace) ++ ex).drop
          ((r2.dropWhile pyIsSpace).takeWhile Char.isDigit).length = r3 ++ ex := by
        rw [hsplit, List.drop_left]
      rw [hdrop]
    cases hdw : r3.dropWhile pyIsSpace with
    | nil => rw [hdw] at h4; simp [eatDash] at h4
    | cons c r5 =>
      rw [hdw] at h4
      by_cases hdash : isDash c = true
      · simp only [eatDash, hdash, if_true, Option.some.injEq] at h4
        subst h4
        have hdwne : r3.dropWhile pyIsSpace ≠ [] := by rw [hdw]; simp
        have e4 : eatDash ((r3 ++ ex).dropWhile pyIsSpace) = some (r5 ++ ex) := by
          rw [dropWhile_append_ne_nil pyIsSpace r3 ex hdwne, hdw]
          simp [eatDash, hdash]
        simp only [e1, e2, e3, e4]
        exact titleTailOk_append r5 ex h
      · simp [eatDash, hdash] at h4

theorem existsSegMatchAux_head (cs : List Char) (h : segMatchAt cs = true) :
    existsSegMatchAux cs true = true := by
  cases cs with
  | nil => exact absurd h (by decide)
  | cons c rest => simp [existsSegMatchAux, h]

theorem existsSegMatchAux_lift (l0 cs2 : List Char)
    (h : existsSegMatchAux cs2 true = true) :
    ∀ b, existsSegMatchAux (l0 ++ '\n' :: cs2) b = true := by
  induction l0 with
  | nil =>
    intro b
    simp [existsSegMatchAux, h]
  | cons c l2 ih =>
    intro b
    simp only [List.cons_append, existsSegMatchAux, Bool.or_eq_true]
    exact Or.inr (ih _)

theorem splitNl_head_decomp (cs : List Char) :
    (splitNl cs = [cs]) ∨
    (∃ l0 cs2, cs = l0 ++ '\n' :: cs2 ∧ splitNl cs = l0 :: splitNl cs2) := by
  induction cs with
  | nil => left; rfl
  | cons c rest ih =>
    by_cases hc : c = '\n'
    · subst hc
      right
      exact ⟨[], rest, rfl, by simp [splitNl]⟩
    · rcases ih with h1 | ⟨l0, cs2, heq, h1⟩
      · left
        simp [splitNl, hc, h1, consHead]
      · right
        refine ⟨c :: l0, cs2, by rw [heq]; rfl, ?_⟩
        show splitNl (c :: rest) = (c :: l0) :: splitNl cs2
        simp [splitNl, hc, h1, consHead]

theorem any_line_segMatch_fuel :
    ∀ (n : Nat) (cs : List Char), cs.length ≤ n →
      (splitNl cs).any segMatchAt = true → existsSegMatch cs = true := by
  intro n
  induction n with
  | zero =>
    intro cs hlen h
    have hnil : cs = [] := List.length_eq_zero.mp (Nat.le_zero.mp hlen)
    subst hnil
    exact absurd h (by decide)
  | succ n ih =>
    intro cs hlen h
    rcases splitNl_head_decomp cs with h1 | ⟨l0, cs2, heq, h1⟩
    · rw [h1] at h
      simp only [List.any_cons, List.any_nil, Bool.or_false] at h
      exact existsSegMatchAux_head cs h
    · rw [h1] at h
      simp only [List.any_cons, Bool.or_eq_true] at h
      rcases h with h | h
      · have hmono : segMatchAt (l0 ++ '\n' :: cs2) = true := segMatchAt_append l0 _ h
        rw [heq]
        exact existsSegMatchAux_head _ hmono
      · have hlen2 : cs2.length ≤ n := by
          rw [heq, List.length_append, List.length_cons] at hlen
          omega
        have h2 := ih cs2 hlen2 h
        rw [heq]
        exact existsSegMatchAux_lift l0 cs2 h2 true

theorem any_line_segMatch (cs : List Char)
    (h : (splitNl cs).any segMatchAt = true) : existsSegMatch cs = true :=
  any_line_segMatch_fuel cs.length cs le_rfl h

/-- C5 counterexample: in this script no single line matches the
sub-segment header pattern (the first line ends at the dash), a line is
exactly the Deep Dives header, and yet the segment-header strategy is
selected, because the detection regex is matched against the whole
content and its whitespace class crosses the line break to reach the
title on the next line.  The claim's priority rule, read line by line,
would have selected the block-with-dividers strategy. -/
theorem spec_C5_counterexample :
    ExtractTimestamps.selectStrategy "### SEGMENT: PAPER 1 -\nX\n## Deep Dives\n"
      = .segmentHeader ∧
    (splitNl ( "### SEGMENT: PAPER 1 -\nX\n## Deep Dives\n" : String).toList).any segMatchAt
      = false ∧
    (splitNl ( "### SEGMENT: PAPER 1 -\nX\n## Deep Dives\n" : String).toList).any ddLineB
      = true := by
  exact ⟨by decide, by decide, by decide⟩

/-- C5 amended: dialect detection follows the fixed priority with the
segment-header trigger read over the whole content at line starts (its
whitespace may span line breaks); a single line matching the pattern is
still sufficient; when no segment-header match exists anywhere, a line
that is exactly the Deep Dives header (trailing whitespace ignored)
selects the block-with-dividers strategy, and otherwise the standard
strategy is selected, so the parser is total over all input text. -/
theorem spec_C5_amended (en : String → Option String) (content : String) :
    (existsSegMatch content.toList = true →
      ExtractTimestamps.selectStrategy content = .segmentHeader) ∧
    ((splitNl content.toList).any segMatchAt = true →
      ExtractTimestamps.selectStrategy content = .segmentHeader) ∧
    (existsSegMatch content.toList = false →
      (splitNl content.toList).any ddLineB = true →
      ExtractTimestamps.selectStrategy content = .blockWithDividers) ∧
    (existsSegMatch content.toList = false →
      (splitNl content.toList).any ddLineB = false →
      ExtractTimestamps.selectStrategy content = .standard) ∧
    (ExtractTimestamps.parse_script_sections en content =
      match ExtractTimestamps.selectStrategy content with
      | .segmentHeader => ExtractTimestamps.parseSegmentFormat content
      | .blockWithDividers => ExtractTimestamps.parseDeepDivesBlock en content
      | .standard => ExtractTimestamps.parseStandardSections content) := by
  refine ⟨?_, ?_, ?_, ?_, rfl⟩
  · intro h
    have h' : existsSegMatch content.data = true := h
    simp [ExtractTimestamps.selectStrategy, h']
  · intro h
    have h2 := any_line_segMatch content.toList h
    have h' : existsSegMatch content.data = true := h2
    simp [ExtractTimestamps.selectStrategy, h']
  · intro h1 h2
    have h1' : existsSegMatch content.data = false := h1
    have h2' : (splitNl content.data).any ddLineB = true := h2
    simp [ExtractTimestamps.selectStrategy, h1', h2']
  · intro h1 h2
    have h1' : existsSegMatch content.data = false := h1
    have h2' : (splitNl content.data).any ddLineB = false := h2
    simp [ExtractTimestamps.selectStrategy, h1', h2']

/-- Witness for C5 at two concrete scripts: a Deep Dives script with no
segment headers selects block-with-dividers, and a well-formed one-line
segment header selects the segment-header strategy via the line-level
sufficiency direction. -/
theorem spec_C5_witness :
    (existsSegMatch ( "## Deep Dives\nstuff" : String).toList = false) ∧
    ((splitNl ( "## Deep Dives\nstuff" : String).toList).any ddLineB = true) ∧
    ExtractTimestamps.selectStrategy "## Deep Dives\nstuff" = .blockWithDividers ∧
    ((splitNl ( "### SEGMENT: PAPER 2 — T" : String).toList).any segMatchAt = true) ∧
    ExtractTimestamps.selectStrategy "### SEGMENT: PAPER 2 — T" = .segmentHeader := by
  refine ⟨by decide, by decide,
    (spec_C5_amended (fun _ => none) "## Deep Dives\nstuff").2.2.1 (by decide) (by decide),
    by decide,
    (spec_C5_amended (fun _ => none) "### SEGMENT: PAPER 2 — T").2.1 (by decide)⟩
